import Mathlib

/-!
Verification of the packs-print job queue and printer status tracker.

The queue model is a shallow embedding of the `PrintQueue` class in
`src/queue.js`.  JavaScript runs the class single-threaded: every external
entry point (`add`, `completeCurrentJob`, `failCurrentJob`, `pause`,
`resume`, `clearQueue`) runs synchronously up to the point where the
processing loop suspends awaiting the execution handshake, and the microtask
continuation of a resolved await runs before the next external call.  We
therefore model each entry point as one atomic transition that includes the
synchronous prefix of the processing loop (up to its next `await`) and the
microtask continuation of a resolved handshake.  A suspended instance of
`processQueue` is recorded by the id it awaits (`waiters`); `pause` can leave
such an instance behind with the `processing` flag cleared, which is exactly
the behaviour under scrutiny.

The printer model embeds the `Printer` class of `src/printer.js` (the
status-tracking part: `getStatus`, `statusToString`, `retryConnection`) and
`printerStatusToString` of `src/monitor.js`.  Device reads are passed in as
parameters (`Option Nat`: `none` models a read that throws).
-/

/-! ## Job queue model (src/queue.js) -/

inductive JobStatus
  | queued
  | processing
  | completed
  | failed
deriving DecidableEq, Repr

/-- The error payload stored by `markJobFailed`: `{ message, stack }`. -/
structure Err where
  message : String
  stack : String
deriving DecidableEq, Repr

/-- One job record.  `generateJobId` yields opaque unique ids; we model them
as enqueue sequence numbers, so the id order is the `queuedAt` order. -/
structure Job where
  id : Nat
  template : String
  copies : Int
  status : JobStatus
  result : Option String := none
  error : Option Err := none
deriving DecidableEq, Repr

/-- Events emitted by the queue (the `EventEmitter` surface). -/
inductive Ev
  | jobQueued (id : Nat)
  | jobStarted (id : Nat)
  | printRequest (id : Nat)
  | jobCompleted (id : Nat)
  | jobFailed (id : Nat)
  | queueEmpty
  | queueCleared (n : Nat)
  | queuePaused
  | queueResumed
deriving DecidableEq, Repr

/-- The mutable state of a `PrintQueue` instance.  `jobs` is the log of every
job record ever created (job objects stay reachable through events), `queue`
holds the ids of the backlog, `waiters` the ids awaited by suspended
`processQueue` instances, `events` the emission log. -/
structure QState where
  jobs : List Job
  queue : List Nat
  processing : Bool
  current : Option Nat
  totalJobs : Nat
  completedJobs : Nat
  failedJobs : Nat
  waiters : List Nat
  events : List Ev
deriving DecidableEq, Repr

def initQ : QState :=
  { jobs := [], queue := [], processing := false, current := none,
    totalJobs := 0, completedJobs := 0, failedJobs := 0,
    waiters := [], events := [] }

/-- `job.status = st` for the record with the given id. -/
def setStatus (jobs : List Job) (i : Nat) (st : JobStatus) : List Job :=
  jobs.map (fun j => if j.id = i then { j with status := st } else j)

/-- `markJobCompleted` mutations on the job record. -/
def setCompleted (jobs : List Job) (i : Nat) (r : String) : List Job :=
  jobs.map (fun j =>
    if j.id = i then { j with status := JobStatus.completed, result := some r } else j)

/-- `markJobFailed` mutations on the job record. -/
def setFailed (jobs : List Job) (i : Nat) (e : Err) : List Job :=
  jobs.map (fun j =>
    if j.id = i then { j with status := JobStatus.failed, error := some e } else j)

/-- Look a job record up by id (the record shared through events). -/
def findJob (s : QState) (i : Nat) : Option Job :=
  s.jobs.find? (fun j => j.id == i)

/-- One round of the body of `processQueue` as it runs between suspension
points: either the `while` guard fails and the loop exits
(`processing = false`, emit `queueEmpty`), or the head of the backlog is
shifted and `processJob` runs up to its `await` (set `currentJob`, mark the
job `processing`, emit `jobStarted` and `printRequest`, register the
handshake listeners = push the id on `waiters`). -/
def loopStep (s : QState) : QState :=
  match s.queue with
  | [] =>
      { s with processing := false, events := s.events ++ [Ev.queueEmpty] }
  | i :: rest =>
      { s with queue := rest,
               jobs := setStatus s.jobs i JobStatus.processing,
               current := some i,
               waiters := s.waiters ++ [i],
               events := s.events ++ [Ev.jobStarted i, Ev.printRequest i] }

/-- `processQueue` entry: the re-entrancy guard, then `processing = true` and
the first round of the loop. -/
def processQueue (s : QState) : QState :=
  if s.processing = true ∨ s.queue = [] then s
  else loopStep { s with processing := true }

/-- The record-creation and enqueue part of the body of `add` (new id, new
job record with `status = queued`, push, `totalJobs` increment, `jobQueued`
emission), before the conditional `processQueue` trigger. -/
def enqueueState (s : QState) (template : String) (copies : Int) : QState :=
  { s with
    jobs := s.jobs ++ [{ id := s.jobs.length, template := template,
                         copies := copies, status := JobStatus.queued }],
    queue := s.queue ++ [s.jobs.length],
    totalJobs := s.totalJobs + 1,
    events := s.events ++ [Ev.jobQueued s.jobs.length] }

/-- `add(job)`: validation, record creation, enqueue, and the conditional
`processQueue` trigger.  JavaScript `!job.template` rejects a missing or
empty template; the thrown `Error` is returned as `Except.error`. -/
def addJob (s : QState) (template : String) (copies : Int) :
    Except String (Nat × QState) :=
  if template = "" then Except.error "Invalid job: missing template"
  else
    Except.ok (s.jobs.length,
      if (enqueueState s template copies).processing = true then
        enqueueState s template copies
      else processQueue (enqueueState s template copies))

/-- `markJobCompleted(job, result)`. -/
def markJobCompleted (s : QState) (i : Nat) (r : String) : QState :=
  { s with jobs := setCompleted s.jobs i r,
           completedJobs := s.completedJobs + 1,
           current := none,
           events := s.events ++ [Ev.jobCompleted i] }

/-- `markJobFailed(job, error)`. -/
def markJobFailed (s : QState) (i : Nat) (e : Err) : QState :=
  { s with jobs := setFailed s.jobs i e,
           failedJobs := s.failedJobs + 1,
           current := none,
           events := s.events ++ [Ev.jobFailed i] }

/-- The microtask continuation of the handshake: a `processQueue` instance
suspended on id `i` (listener registered filtered on that id) resumes and
runs the next round of its loop. -/
def resumeWaiter (s : QState) (i : Nat) : QState :=
  if i ∈ s.waiters then loopStep { s with waiters := s.waiters.erase i } else s

/-- `completeCurrentJob(result)`: no-op without a current job; otherwise
finalize it and let the suspended loop instance continue. -/
def completeCurrentJob (s : QState) (r : String) : QState :=
  match s.current with
  | none => s
  | some i => resumeWaiter (markJobCompleted s i r) i

/-- `failCurrentJob(error)`: no-op without a current job; otherwise finalize
it as failed and let the suspended loop instance continue. -/
def failCurrentJob (s : QState) (e : Err) : QState :=
  match s.current with
  | none => s
  | some i => resumeWaiter (markJobFailed s i e) i

/-- `pause()`: clears the `processing` flag if set.  Nothing else: the
`while` loop in `processQueue` does not read the flag. -/
def pauseQ (s : QState) : QState :=
  if s.processing = true then
    { s with processing := false, events := s.events ++ [Ev.queuePaused] }
  else s

/-- `resume()`. -/
def resumeQ (s : QState) : QState :=
  if s.processing = false ∧ s.queue ≠ [] then
    let s1 := processQueue s
    { s1 with events := s1.events ++ [Ev.queueResumed] }
  else s

/-- `clearQueue()`: returns `false` (busy) while the `processing` flag is
set, otherwise empties the backlog and emits the removed count. -/
def clearQueue (s : QState) : Bool × QState :=
  if s.processing = true then (false, s)
  else
    (true, { s with queue := [],
                    events := s.events ++ [Ev.queueCleared s.queue.length] })

/-- The immediate-resolution condition of `drain()`; otherwise `drain`
resolves at the next `queueEmpty` emission. -/
def drainResolvesNow (s : QState) : Bool :=
  s.queue.isEmpty && !s.processing

/-- JavaScript number-or-string union, for `successRate`. -/
inductive JsVal
  | str (s : String)
  | num (n : Nat)
deriving DecidableEq, Repr

/-- `(n / d).toFixed(1)` computed on the exact rational `n / d` (the value is
nonnegative here): the nearest multiple of one tenth, ties upward, printed
with exactly one fraction digit. -/
def toFixed1 (n d : Nat) : String :=
  let scaled := (n * 10 * 2 + d) / (d * 2)
  Nat.repr (scaled / 10) ++ "." ++ Nat.repr (scaled % 10)

/-- The fields of `getStats()` (the time-dependent `runtime` field is
omitted). -/
structure Stats where
  totalJobs : Nat
  completedJobs : Nat
  failedJobs : Nat
  queueLength : Nat
  processing : Bool
  successRate : JsVal
deriving DecidableEq, Repr

/-- `getStats()`. -/
def getStats (s : QState) : Stats :=
  { totalJobs := s.totalJobs,
    completedJobs := s.completedJobs,
    failedJobs := s.failedJobs,
    queueLength := s.queue.length,
    processing := s.processing,
    successRate :=
      if s.totalJobs > 0 then
        JsVal.str (toFixed1 (s.completedJobs * 100) s.totalJobs)
      else JsVal.num 0 }

/-- The external entry points, as trace alphabet. -/
inductive Op
  | add (template : String) (copies : Int)
  | complete (r : String)
  | failOp (msg stack : String)
  | pauseOp
  | resumeOp
  | clearOp
deriving DecidableEq, Repr

def step (s : QState) (op : Op) : QState :=
  match op with
  | Op.add t c =>
      match addJob s t c with
      | Except.ok (_, s2) => s2
      | Except.error _ => s
  | Op.complete r => completeCurrentJob s r
  | Op.failOp m st => failCurrentJob s (Err.mk m st)
  | Op.pauseOp => pauseQ s
  | Op.resumeOp => resumeQ s
  | Op.clearOp => (clearQueue s).2

def run (ops : List Op) : QState :=
  ops.foldl step initQ

def Reachable (s : QState) : Prop :=
  ∃ ops : List Op, run ops = s

def ReachableNoPause (s : QState) : Prop :=
  ∃ ops : List Op, Op.pauseOp ∉ ops ∧ run ops = s

/-- Ids of finalized jobs, in finalization order, read off the event log. -/
def finalizedIds (evs : List Ev) : List Nat :=
  evs.filterMap (fun e =>
    match e with
    | Ev.jobCompleted i => some i
    | Ev.jobFailed i => some i
    | _ => none)

/-! ## Printer status model (src/printer.js, src/monitor.js) -/

def PRINTER_STATUS_READY : Nat := 0x18
def PRINTER_STATUS_PAPER_OUT : Nat := 0x30
def PRINTER_STATUS_CALIBRATING : Nat := 0x50
def PRINTER_STATUS_LOADING : Nat := 0xb0
def PRINTER_STATUS_ERROR : Nat := 0x08

/-- JavaScript `n.toString(16)` for a status byte. -/
def natToHex (n : Nat) : String :=
  String.mk (Nat.toDigits 16 n)

/-- `Printer.statusToString(status)`: reads `this.deviceAvailable`, passed
here as a parameter. -/
def statusToString (deviceAvailable : Bool) (status : Nat) : String :=
  if deviceAvailable = false then "device not available"
  else if status = PRINTER_STATUS_READY then "ready"
  else if status = PRINTER_STATUS_PAPER_OUT then "paper out"
  else if status = PRINTER_STATUS_CALIBRATING then "calibrating"
  else if status = PRINTER_STATUS_LOADING then "loading"
  else if status = PRINTER_STATUS_ERROR then "error"
  else "unknown (0x" ++ natToHex status ++ ")"

/-- `Monitor.printerStatusToString(status)` in src/monitor.js (no
availability guard: it is only called after a successful device access). -/
def printerStatusToString (status : Nat) : String :=
  if status = PRINTER_STATUS_READY then "ready"
  else if status = PRINTER_STATUS_PAPER_OUT then "paper out"
  else if status = PRINTER_STATUS_CALIBRATING then "calibrating"
  else if status = PRINTER_STATUS_LOADING then "loading"
  else if status = PRINTER_STATUS_ERROR then "error"
  else "unknown (0x" ++ natToHex status ++ ")"

/-- The status-tracking fields of the `Printer` class. -/
structure PrinterState where
  deviceAvailable : Bool
  isPrinting : Bool
  lastStatus : Option Nat
  initFailed : Bool
deriving DecidableEq, Repr

/-- Result of `getStatus`: the updated state, the returned status code, and
the payloads of the `statusChanged` emissions. -/
structure GetStatusRes where
  state : PrinterState
  ret : Nat
  emits : List String
deriving DecidableEq, Repr

/-- `Printer.getStatus()`.  The hardware read is passed in as `read`
(`none` models the ioctl/open throwing).  The `!ioctl` development mock is
not modelled. -/
def getStatus (s : PrinterState) (read : Option Nat) : GetStatusRes :=
  if s.deviceAvailable = false then
    { state := s, ret := PRINTER_STATUS_ERROR, emits := [] }
  else if s.isPrinting = true then
    { state := s, ret := s.lastStatus.getD PRINTER_STATUS_READY, emits := [] }
  else
    match read with
    | some b =>
        if some b ≠ s.lastStatus then
          { state := { s with lastStatus := some b }, ret := b,
            emits := [statusToString true b] }
        else
          { state := s, ret := b, emits := [] }
    | none =>
        { state := { s with deviceAvailable := false },
          ret := PRINTER_STATUS_ERROR, emits := ["device disconnected"] }

/-- Result of `retryConnection`. -/
structure RetryRes where
  state : PrinterState
  ok : Bool
  emits : List String
deriving DecidableEq, Repr

/-- `Printer.retryConnection()`.  `probeOk` is whether `checkDeviceAccess`
succeeds; `read` is the hardware read used by the inner `getStatus` call. -/
def retryConnection (s : PrinterState) (probeOk : Bool) (read : Option Nat) :
    RetryRes :=
  if probeOk = false then { state := s, ok := false, emits := [] }
  else if s.deviceAvailable = false then
    let s1 := { s with deviceAvailable := true, initFailed := false }
    let g := getStatus s1 read
    { state := { g.state with lastStatus := some g.ret }, ok := true,
      emits := g.emits ++ ["reconnected"] }
  else { state := s, ok := false, emits := [] }

/-- The copies extraction of `handleMessage` in src/mqtt.js:
`parseInt(messageData.copies) || 1`, modelled on integer-or-absent message
fields.  An absent or non-numeric field parses to NaN and a zero value is
falsy, both defaulting to 1; any other integer, negative included, passes
through unchanged. -/
def parseCopies (c : Option Int) : Int :=
  match c with
  | none => 1
  | some n => if n = 0 then 1 else n

/-! ## Helper lemmas -/

theorem finalizedIds_append (a b : List Ev) :
    finalizedIds (a ++ b) = finalizedIds a ++ finalizedIds b :=
  List.filterMap_append a b _

@[simp] theorem finalizedIds_nil : finalizedIds [] = [] := rfl

@[simp] theorem finalizedIds_jobQueued (i : Nat) (evs : List Ev) :
    finalizedIds (Ev.jobQueued i :: evs) = finalizedIds evs := rfl

@[simp] theorem finalizedIds_jobStarted (i : Nat) (evs : List Ev) :
    finalizedIds (Ev.jobStarted i :: evs) = finalizedIds evs := rfl

@[simp] theorem finalizedIds_printRequest (i : Nat) (evs : List Ev) :
    finalizedIds (Ev.printRequest i :: evs) = finalizedIds evs := rfl

@[simp] theorem finalizedIds_jobCompleted (i : Nat) (evs : List Ev) :
    finalizedIds (Ev.jobCompleted i :: evs) = i :: finalizedIds evs := rfl

@[simp] theorem finalizedIds_jobFailed (i : Nat) (evs : List Ev) :
    finalizedIds (Ev.jobFailed i :: evs) = i :: finalizedIds evs := rfl

@[simp] theorem finalizedIds_queueEmpty (evs : List Ev) :
    finalizedIds (Ev.queueEmpty :: evs) = finalizedIds evs := rfl

@[simp] theorem finalizedIds_queueCleared (n : Nat) (evs : List Ev) :
    finalizedIds (Ev.queueCleared n :: evs) = finalizedIds evs := rfl

@[simp] theorem finalizedIds_queuePaused (evs : List Ev) :
    finalizedIds (Ev.queuePaused :: evs) = finalizedIds evs := rfl

@[simp] theorem finalizedIds_queueResumed (evs : List Ev) :
    finalizedIds (Ev.queueResumed :: evs) = finalizedIds evs := rfl

theorem map_id_update (jobs : List Job) (f : Job → Job)
    (hf : ∀ j, (f j).id = j.id) :
    (jobs.map f).map Job.id = jobs.map Job.id := by
  rw [List.map_map]
  congr 1
  funext j
  exact hf j

theorem find?_update (jobs : List Job) (f : Job → Job)
    (hf : ∀ j, (f j).id = j.id) (k : Nat) :
    (jobs.map f).find? (fun j => j.id == k) =
      (jobs.find? (fun j => j.id == k)).map f := by
  rw [List.find?_map]
  have hp : ((fun j => j.id == k) ∘ f) = (fun j : Job => j.id == k) := by
    funext j
    simp [Function.comp, hf j]
  rw [hp]

theorem id_lt_of_mem (jobs : List Job)
    (hids : jobs.map Job.id = List.range jobs.length)
    (j : Job) (hj : j ∈ jobs) : j.id < jobs.length := by
  have hm : j.id ∈ jobs.map Job.id := List.mem_map_of_mem _ hj
  rw [hids] at hm
  exact List.mem_range.1 hm

theorem find?_id_eq_some (jobs : List Job)
    (hids : jobs.map Job.id = List.range jobs.length)
    (k : Nat) (hk : k < jobs.length) :
    ∃ j, jobs.find? (fun j => j.id == k) = some j ∧ j.id = k := by
  have hmem : k ∈ jobs.map Job.id := by
    rw [hids]; exact List.mem_range.2 hk
  obtain ⟨j, hj, hjk⟩ := List.mem_map.1 hmem
  have hsome : (jobs.find? (fun j => j.id == k)).isSome := by
    rw [List.find?_isSome]
    exact ⟨j, hj, by simp [hjk]⟩
  obtain ⟨j2, hj2⟩ := Option.isSome_iff_exists.1 hsome
  refine ⟨j2, hj2, ?_⟩
  simpa using List.find?_some hj2

theorem nodup_lt_length_le (l : List Nat) (n : Nat) (hn : l.Nodup)
    (hlt : ∀ x ∈ l, x < n) : l.length ≤ n := by
  classical
  have h1 : l.toFinset.card = l.length := List.toFinset_card_of_nodup hn
  have h2 : l.toFinset ⊆ Finset.range n := by
    intro x hx
    rw [List.mem_toFinset] at hx
    exact Finset.mem_range.2 (hlt x hx)
  have h3 := Finset.card_le_card h2
  rw [Finset.card_range, h1] at h3
  exact h3

theorem nodup_const_length_le_one {α : Type} (l : List α) (c : α)
    (hn : l.Nodup) (h : ∀ a ∈ l, a = c) : l.length ≤ 1 := by
  match l with
  | [] => simp
  | [a] => simp
  | a :: b :: t =>
      exfalso
      have ha := h a (by simp)
      have hb := h b (by simp)
      rw [List.nodup_cons] at hn
      exact hn.1 (by rw [ha, ← hb]; exact List.mem_cons_self _ _)

theorem eq_range_of_append_eq_range (l₁ l₂ : List Nat) (n : Nat)
    (h : l₁ ++ l₂ = List.range n) : l₁ = List.range l₁.length := by
  have hlen : l₁.length ≤ n := by
    have hl := congrArg List.length h
    simp only [List.length_append, List.length_range] at hl
    omega
  calc l₁ = (l₁ ++ l₂).take l₁.length := (List.take_left l₁ l₂).symm
    _ = (List.range n).take l₁.length := by rw [h]
    _ = List.range (min l₁.length n) := List.take_range _ _
    _ = List.range l₁.length := by rw [Nat.min_eq_left hlen]

/-! ## The all-trace invariant -/

/-- Bookkeeping facts that hold in every reachable state, pause included:
ids are the enqueue sequence numbers, the stats counters match the
finalization events, and backlog / current / finalized ids never overlap. -/
structure InvAll (s : QState) : Prop where
  total_eq : s.totalJobs = s.jobs.length
  ids_eq : s.jobs.map Job.id = List.range s.jobs.length
  counts_eq : s.completedJobs + s.failedJobs = (finalizedIds s.events).length
  fin_nodup : (finalizedIds s.events).Nodup
  fin_lt : ∀ i ∈ finalizedIds s.events, i < s.jobs.length
  queue_nodup : s.queue.Nodup
  queue_lt : ∀ i ∈ s.queue, i < s.jobs.length
  queue_fin : ∀ i ∈ s.queue, i ∉ finalizedIds s.events
  cur_lt : ∀ i, s.current = some i → i < s.jobs.length
  cur_fin : ∀ i, s.current = some i → i ∉ finalizedIds s.events
  cur_queue : ∀ i, s.current = some i → i ∉ s.queue
  cur_wait : ∀ i, s.current = some i → i ∈ s.waiters

theorem invAll_setProcessing (s : QState) (b : Bool) (h : InvAll s) :
    InvAll { s with processing := b } :=
  ⟨h.total_eq, h.ids_eq, h.counts_eq, h.fin_nodup, h.fin_lt, h.queue_nodup,
   h.queue_lt, h.queue_fin, h.cur_lt, h.cur_fin, h.cur_queue, h.cur_wait⟩

theorem invAll_appendEv (s : QState) (e : Ev)
    (hfe : finalizedIds [e] = []) (h : InvAll s) :
    InvAll { s with events := s.events ++ [e] } := by
  have hfin : finalizedIds (s.events ++ [e]) = finalizedIds s.events := by
    rw [finalizedIds_append, hfe, List.append_nil]
  exact ⟨h.total_eq, h.ids_eq, by rw [hfin]; exact h.counts_eq,
         by rw [hfin]; exact h.fin_nodup, by rw [hfin]; exact h.fin_lt,
         h.queue_nodup, h.queue_lt, by rw [hfin]; exact h.queue_fin,
         h.cur_lt, by rw [hfin]; exact h.cur_fin, h.cur_queue, h.cur_wait⟩

theorem invAll_loopStep (s : QState) (h : InvAll s) : InvAll (loopStep s) := by
  rcases hq : s.queue with _ | ⟨i, rest⟩
  · have hs : loopStep s =
        { s with processing := false, events := s.events ++ [Ev.queueEmpty] } := by
      simp [loopStep, hq]
    rw [hs]
    exact invAll_appendEv { s with processing := false } Ev.queueEmpty rfl
      (invAll_setProcessing s false h)
  · have hs : loopStep s =
        { s with
          queue := rest,
          jobs := setStatus s.jobs i JobStatus.processing,
          current := some i,
          waiters := s.waiters ++ [i],
          events := s.events ++ [Ev.jobStarted i, Ev.printRequest i] } := by
      simp [loopStep, hq]
    have hlen : (setStatus s.jobs i JobStatus.processing).length = s.jobs.length := by
      simp [setStatus]
    have hfin : finalizedIds (s.events ++ [Ev.jobStarted i, Ev.printRequest i]) =
        finalizedIds s.events := by
      rw [finalizedIds_append]; simp
    have hnd := List.nodup_cons.1 (hq ▸ h.queue_nodup)
    have hiq : i ∈ s.queue := by rw [hq]; exact List.mem_cons_self _ _
    rw [hs]
    refine ⟨?_, ?_, ?_, ?_, ?_, ?_, ?_, ?_, ?_, ?_, ?_, ?_⟩
    · show s.totalJobs = (setStatus s.jobs i JobStatus.processing).length
      rw [hlen]; exact h.total_eq
    · show (setStatus s.jobs i JobStatus.processing).map Job.id =
        List.range (setStatus s.jobs i JobStatus.processing).length
      rw [hlen]
      exact (map_id_update s.jobs _ (fun j => by split <;> rfl)).trans h.ids_eq
    · show s.completedJobs + s.failedJobs = _
      rw [hfin]; exact h.counts_eq
    · show (finalizedIds (s.events ++ _)).Nodup
      rw [hfin]; exact h.fin_nodup
    · show ∀ x ∈ finalizedIds (s.events ++ _), x < (setStatus s.jobs i JobStatus.processing).length
      rw [hfin, hlen]; exact h.fin_lt
    · exact hnd.2
    · intro x hx
      show x < (setStatus s.jobs i JobStatus.processing).length
      rw [hlen]
      exact h.queue_lt x (by rw [hq]; exact List.mem_cons_of_mem _ hx)
    · intro x hx
      show x ∉ finalizedIds (s.events ++ _)
      rw [hfin]
      exact h.queue_fin x (by rw [hq]; exact List.mem_cons_of_mem _ hx)
    · intro k hk
      obtain rfl : i = k := Option.some.inj hk
      show i < (setStatus s.jobs i JobStatus.processing).length
      rw [hlen]; exact h.queue_lt i hiq
    · intro k hk
      obtain rfl : i = k := Option.some.inj hk
      show i ∉ finalizedIds (s.events ++ _)
      rw [hfin]; exact h.queue_fin i hiq
    · intro k hk
      obtain rfl : i = k := Option.some.inj hk
      exact hnd.1
    · intro k hk
      obtain rfl : i = k := Option.some.inj hk
      simp

theorem invAll_processQueue (s : QState) (h : InvAll s) : InvAll (processQueue s) := by
  unfold processQueue
  split
  · exact h
  · exact invAll_loopStep _ (invAll_setProcessing s true h)

theorem invAll_markJobCompleted (s : QState) (i : Nat) (r : String)
    (h : InvAll s) (hc : s.current = some i) : InvAll (markJobCompleted s i r) := by
  have hlen : (setCompleted s.jobs i r).length = s.jobs.length := by
    simp [setCompleted]
  have hfin : finalizedIds (s.events ++ [Ev.jobCompleted i]) =
      finalizedIds s.events ++ [i] := by
    rw [finalizedIds_append]; rfl
  have hifin : i ∉ finalizedIds s.events := h.cur_fin i hc
  have hilt : i < s.jobs.length := h.cur_lt i hc
  have hiq : i ∉ s.queue := h.cur_queue i hc
  refine ⟨?_, ?_, ?_, ?_, ?_, ?_, ?_, ?_, ?_, ?_, ?_, ?_⟩
  · show s.totalJobs = (setCompleted s.jobs i r).length
    rw [hlen]; exact h.total_eq
  · show (setCompleted s.jobs i r).map Job.id = List.range (setCompleted s.jobs i r).length
    rw [hlen]
    exact (map_id_update s.jobs _ (fun j => by split <;> rfl)).trans h.ids_eq
  · show s.completedJobs + 1 + s.failedJobs = (finalizedIds (s.events ++ [Ev.jobCompleted i])).length
    rw [hfin, List.length_append]
    have := h.counts_eq
    simp
    omega
  · show (finalizedIds (s.events ++ [Ev.jobCompleted i])).Nodup
    rw [hfin]
    refine List.Nodup.append h.fin_nodup (List.nodup_singleton i) ?_
    intro a ha hb
    rw [List.mem_singleton] at hb
    subst hb
    exact hifin ha
  · show ∀ x ∈ finalizedIds (s.events ++ [Ev.jobCompleted i]), x < (setCompleted s.jobs i r).length
    rw [hfin, hlen]
    intro x hx
    rcases List.mem_append.1 hx with hx | hx
    · exact h.fin_lt x hx
    · rw [List.mem_singleton] at hx; subst hx; exact hilt
  · exact h.queue_nodup
  · intro x hx
    show x < (setCompleted s.jobs i r).length
    rw [hlen]; exact h.queue_lt x hx
  · intro x hx
    show x ∉ finalizedIds (s.events ++ [Ev.jobCompleted i])
    rw [hfin]
    intro hmem
    rcases List.mem_append.1 hmem with hm | hm
    · exact h.queue_fin x hx hm
    · rw [List.mem_singleton] at hm; subst hm; exact hiq hx
  · intro k hk; cases hk
  · intro k hk; cases hk
  · intro k hk; cases hk
  · intro k hk; cases hk

theorem invAll_markJobFailed (s : QState) (i : Nat) (e : Err)
    (h : InvAll s) (hc : s.current = some i) : InvAll (markJobFailed s i e) := by
  have hlen : (setFailed s.jobs i e).length = s.jobs.length := by
    simp [setFailed]
  have hfin : finalizedIds (s.events ++ [Ev.jobFailed i]) =
      finalizedIds s.events ++ [i] := by
    rw [finalizedIds_append]; rfl
  have hifin : i ∉ finalizedIds s.events := h.cur_fin i hc
  have hilt : i < s.jobs.length := h.cur_lt i hc
  have hiq : i ∉ s.queue := h.cur_queue i hc
  refine ⟨?_, ?_, ?_, ?_, ?_, ?_, ?_, ?_, ?_, ?_, ?_, ?_⟩
  · show s.totalJobs = (setFailed s.jobs i e).length
    rw [hlen]; exact h.total_eq
  · show (setFailed s.jobs i e).map Job.id = List.range (setFailed s.jobs i e).length
    rw [hlen]
    exact (map_id_update s.jobs _ (fun j => by split <;> rfl)).trans h.ids_eq
  · show s.completedJobs + (s.failedJobs + 1) = (finalizedIds (s.events ++ [Ev.jobFailed i])).length
    rw [hfin, List.length_append]
    have := h.counts_eq
    simp
    omega
  · show (finalizedIds (s.events ++ [Ev.jobFailed i])).Nodup
    rw [hfin]
    refine List.Nodup.append h.fin_nodup (List.nodup_singleton i) ?_
    intro a ha hb
    rw [List.mem_singleton] at hb
    subst hb
    exact hifin ha
  · show ∀ x ∈ finalizedIds (s.events ++ [Ev.jobFailed i]), x < (setFailed s.jobs i e).length
    rw [hfin, hlen]
    intro x hx
    rcases List.mem_append.1 hx with hx | hx
    · exact h.fin_lt x hx
    · rw [List.mem_singleton] at hx; subst hx; exact hilt
  · exact h.queue_nodup
  · intro x hx
    show x < (setFailed s.jobs i e).length
    rw [hlen]; exact h.queue_lt x hx
  · intro x hx
    show x ∉ finalizedIds (s.events ++ [Ev.jobFailed i])
    rw [hfin]
    intro hmem
    rcases List.mem_append.1 hmem with hm | hm
    · exact h.queue_fin x hx hm
    · rw [List.mem_singleton] at hm; subst hm; exact hiq hx
  · intro k hk; cases hk
  · intro k hk; cases hk
  · intro k hk; cases hk
  · intro k hk; cases hk

theorem invAll_resumeWaiter (s : QState) (i : Nat) (h : InvAll s)
    (hc : s.current = none) : InvAll (resumeWaiter s i) := by
  unfold resumeWaiter
  split
  · apply invAll_loopStep
    refine ⟨h.total_eq, h.ids_eq, h.counts_eq, h.fin_nodup, h.fin_lt,
            h.queue_nodup, h.queue_lt, h.queue_fin, ?_, ?_, ?_, ?_⟩ <;>
      · intro k hk
        rw [show ({ s with waiters := s.waiters.erase i } : QState).current = s.current from rfl,
            hc] at hk
        cases hk
  · exact h

theorem invAll_completeCurrentJob (s : QState) (r : String) (h : InvAll s) :
    InvAll (completeCurrentJob s r) := by
  unfold completeCurrentJob
  cases hc : s.current with
  | none => exact h
  | some i =>
      exact invAll_resumeWaiter _ i (invAll_markJobCompleted s i r h hc) rfl

theorem invAll_failCurrentJob (s : QState) (e : Err) (h : InvAll s) :
    InvAll (failCurrentJob s e) := by
  unfold failCurrentJob
  cases hc : s.current with
  | none => exact h
  | some i =>
      exact invAll_resumeWaiter _ i (invAll_markJobFailed s i e h hc) rfl

theorem invAll_enqueued (s : QState) (t : String) (c : Int) (h : InvAll s) :
    InvAll (enqueueState s t c) := by
  have hfin : finalizedIds (s.events ++ [Ev.jobQueued s.jobs.length]) =
      finalizedIds s.events := by
    rw [finalizedIds_append]; simp
  refine ⟨?_, ?_, ?_, ?_, ?_, ?_, ?_, ?_, ?_, ?_, ?_, ?_⟩ <;>
    dsimp only [enqueueState]
  · rw [List.length_append, h.total_eq]
    rfl
  · rw [List.map_append, List.length_append, h.ids_eq]
    simp [List.range_succ]
  · rw [hfin]; exact h.counts_eq
  · rw [hfin]; exact h.fin_nodup
  · intro x hx
    rw [hfin] at hx
    have := h.fin_lt x hx
    rw [List.length_append]
    omega
  · refine List.Nodup.append h.queue_nodup (List.nodup_singleton _) ?_
    intro a ha hb
    rw [List.mem_singleton] at hb
    subst hb
    exact absurd (h.queue_lt _ ha) (lt_irrefl _)
  · intro x hx
    rw [List.length_append]
    rcases List.mem_append.1 hx with hm | hm
    · have := h.queue_lt x hm; omega
    · rw [List.mem_singleton] at hm; subst hm
      simp
  · intro x hx
    rw [hfin]
    rcases List.mem_append.1 hx with hm | hm
    · exact h.queue_fin x hm
    · rw [List.mem_singleton] at hm
      subst hm
      intro hcon
      exact absurd (h.fin_lt _ hcon) (lt_irrefl _)
  · intro k hk
    rw [List.length_append]
    have := h.cur_lt k hk
    omega
  · intro k hk
    rw [hfin]
    exact h.cur_fin k hk
  · intro k hk
    intro hmem
    rcases List.mem_append.1 hmem with hm | hm
    · exact h.cur_queue k hk hm
    · rw [List.mem_singleton] at hm
      exact absurd (hm ▸ h.cur_lt k hk) (lt_irrefl _)
  · intro k hk
    exact h.cur_wait k hk

theorem invAll_pauseQ (s : QState) (h : InvAll s) : InvAll (pauseQ s) := by
  unfold pauseQ
  split
  · exact invAll_appendEv { s with processing := false } Ev.queuePaused rfl
      (invAll_setProcessing s false h)
  · exact h

theorem invAll_resumeQ (s : QState) (h : InvAll s) : InvAll (resumeQ s) := by
  unfold resumeQ
  split
  · exact invAll_appendEv (processQueue s) Ev.queueResumed rfl
      (invAll_processQueue s h)
  · exact h

theorem invAll_clearQueue (s : QState) (h : InvAll s) : InvAll (clearQueue s).2 := by
  unfold clearQueue
  split
  · exact h
  · have hfin : finalizedIds (s.events ++ [Ev.queueCleared s.queue.length]) =
        finalizedIds s.events := by
      rw [finalizedIds_append]; simp
    refine ⟨h.total_eq, h.ids_eq, ?_, ?_, ?_, ?_, ?_, ?_, ?_, ?_, ?_, ?_⟩
    · show s.completedJobs + s.failedJobs = _
      rw [hfin]; exact h.counts_eq
    · show (finalizedIds (s.events ++ _)).Nodup
      rw [hfin]; exact h.fin_nodup
    · show ∀ x ∈ finalizedIds (s.events ++ _), x < s.jobs.length
      rw [hfin]; exact h.fin_lt
    · exact List.nodup_nil
    · intro x hx; cases hx
    · intro x hx; cases hx
    · exact h.cur_lt
    · intro k hk
      show k ∉ finalizedIds (s.events ++ _)
      rw [hfin]; exact h.cur_fin k hk
    · intro k hk
      intro hmem
      cases hmem
    · exact h.cur_wait

theorem invAll_step (s : QState) (op : Op) (h : InvAll s) : InvAll (step s op) := by
  cases op with
  | add t c =>
      show InvAll (match addJob s t c with
        | Except.ok (_, s2) => s2
        | Except.error _ => s)
      unfold addJob
      by_cases ht : t = ""
      · rw [if_pos ht]
        exact h
      · rw [if_neg ht]
        have h1 := invAll_enqueued s t c h
        by_cases hp : (enqueueState s t c).processing = true
        · rw [if_pos hp]
          exact h1
        · rw [if_neg hp]
          exact invAll_processQueue _ h1
  | complete r => exact invAll_completeCurrentJob s r h
  | failOp m st => exact invAll_failCurrentJob s (Err.mk m st) h
  | pauseOp => exact invAll_pauseQ s h
  | resumeOp => exact invAll_resumeQ s h
  | clearOp => exact invAll_clearQueue s h

theorem invAll_initQ : InvAll initQ := by
  refine ⟨rfl, rfl, rfl, ?_, ?_, ?_, ?_, ?_, ?_, ?_, ?_, ?_⟩ <;>
    simp [initQ, finalizedIds]

theorem invAll_foldl (ops : List Op) (s : QState) (h : InvAll s) :
    InvAll (ops.foldl step s) := by
  induction ops generalizing s with
  | nil => exact h
  | cons op rest ih => exact ih (step s op) (invAll_step s op h)

theorem invAll_reachable (s : QState) (h : Reachable s) : InvAll s := by
  obtain ⟨ops, rfl⟩ := h
  exact invAll_foldl ops initQ invAll_initQ

theorem invAll_waiters (s : QState) (w : List Nat) (h : InvAll s)
    (hc : s.current = none) : InvAll { s with waiters := w } := by
  refine ⟨h.total_eq, h.ids_eq, h.counts_eq, h.fin_nodup, h.fin_lt,
          h.queue_nodup, h.queue_lt, h.queue_fin, ?_, ?_, ?_, ?_⟩ <;>
    · intro k hk
      rw [show ({ s with waiters := w } : QState).current = s.current from rfl,
          hc] at hk
      cases hk

/-! ## The pause-free invariant -/

/-- Additional structure of reachable states when `pause` is never called:
the `processing` flag tracks exactly one live loop instance, whose awaited id
is `current`; the finalized ids, the current id and the backlog partition the
assigned id range in order; and only the current job has `processing`
status. -/
structure InvNP (s : QState) : Prop where
  base : InvAll s
  notproc : s.processing = false → s.queue = [] ∧ s.current = none ∧ s.waiters = []
  proc : s.processing = true → ∃ i, s.current = some i ∧ s.waiters = [i]
  fifo : finalizedIds s.events ++ s.current.toList ++ s.queue =
    List.range s.totalJobs
  proc_status : ∀ j ∈ s.jobs, j.status = JobStatus.processing →
    s.current = some j.id

theorem invNP_add (s : QState) (t : String) (c : Int) (h : InvNP s) :
    InvNP (match addJob s t c with
      | Except.ok (_, s2) => s2
      | Except.error _ => s) := by
  unfold addJob
  by_cases ht : t = ""
  · rw [if_pos ht]
    exact h
  rw [if_neg ht]
  show InvNP (if (enqueueState s t c).processing = true then enqueueState s t c
    else processQueue (enqueueState s t c))
  have hEfin : finalizedIds (enqueueState s t c).events = finalizedIds s.events := by
    dsimp only [enqueueState]
    rw [finalizedIds_append]
    simp
  by_cases hp : s.processing = true
  · rw [if_pos (show (enqueueState s t c).processing = true from hp)]
    obtain ⟨i, hci, hwi⟩ := h.proc hp
    refine ⟨invAll_enqueued s t c h.base, ?_, ?_, ?_, ?_⟩
    · intro hcontra
      rw [show (enqueueState s t c).processing = s.processing from rfl, hp] at hcontra
      cases hcontra
    · intro _
      exact ⟨i, hci, hwi⟩
    · show finalizedIds (enqueueState s t c).events ++ s.current.toList ++
        (s.queue ++ [s.jobs.length]) = List.range (s.totalJobs + 1)
      rw [hEfin, List.range_succ, ← List.append_assoc, h.fifo, h.base.total_eq]
    · intro j hj hst
      rcases List.mem_append.1 hj with hm | hm
      · exact h.proc_status j hm hst
      · rw [List.mem_singleton] at hm
        subst hm
        cases hst
  · have hp0 : s.processing = false := by
      cases hsp : s.processing
      · rfl
      · exact absurd hsp hp
    obtain ⟨hq0, hc0, hw0⟩ := h.notproc hp0
    rw [if_neg (show ¬ (enqueueState s t c).processing = true from hp)]
    have hEq : (enqueueState s t c).queue = [s.jobs.length] := by
      dsimp only [enqueueState]
      rw [hq0]
      rfl
    have hpq : processQueue (enqueueState s t c) =
        loopStep { enqueueState s t c with processing := true } := by
      unfold processQueue
      rw [if_neg]
      intro hcon
      rcases hcon with hcon | hcon
      · exact hp hcon
      · rw [hEq] at hcon
        cases hcon
    have hls : loopStep { enqueueState s t c with processing := true } =
        { enqueueState s t c with
          processing := true,
          queue := [],
          jobs := setStatus (enqueueState s t c).jobs s.jobs.length JobStatus.processing,
          current := some s.jobs.length,
          waiters := (enqueueState s t c).waiters ++ [s.jobs.length],
          events := (enqueueState s t c).events ++
            [Ev.jobStarted s.jobs.length, Ev.printRequest s.jobs.length] } := by
      simp [loopStep, hEq]
    rw [hpq, hls]
    have hbase : InvAll (processQueue (enqueueState s t c)) :=
      invAll_processQueue _ (invAll_enqueued s t c h.base)
    rw [hpq, hls] at hbase
    refine ⟨hbase, ?_, ?_, ?_, ?_⟩
    · intro hcontra
      cases hcontra
    · intro _
      refine ⟨s.jobs.length, rfl, ?_⟩
      show (enqueueState s t c).waiters ++ [s.jobs.length] = [s.jobs.length]
      rw [show (enqueueState s t c).waiters = s.waiters from rfl, hw0]
      rfl
    · show finalizedIds ((enqueueState s t c).events ++ _) ++ [s.jobs.length] ++ [] =
        List.range (s.totalJobs + 1)
      rw [finalizedIds_append, hEfin]
      have hpre := h.fifo
      rw [hq0, hc0] at hpre
      simp only [Option.toList_none, List.append_nil] at hpre
      simp only [finalizedIds_jobStarted, finalizedIds_printRequest, finalizedIds_nil,
        List.append_nil]
      rw [List.range_succ, hpre, h.base.total_eq]
    · intro j hj hst
      show some s.jobs.length = some j.id
      simp only [setStatus, enqueueState, List.mem_map] at hj
      obtain ⟨j0, hj0, rfl⟩ := hj
      rcases List.mem_append.1 hj0 with hm | hm
      · have hlt := id_lt_of_mem s.jobs h.base.ids_eq j0 hm
        have hne : j0.id ≠ s.jobs.length := Nat.ne_of_lt hlt
        rw [if_neg hne] at hst ⊢
        have := h.proc_status j0 hm hst
        rw [hc0] at this
        cases this
      · rw [List.mem_singleton] at hm
        subst hm
        simp

theorem invNP_complete (s : QState) (r : String) (h : InvNP s) :
    InvNP (completeCurrentJob s r) := by
  unfold completeCurrentJob
  cases hc : s.current with
  | none => exact h
  | some i =>
  have hp : s.processing = true := by
    cases hsp : s.processing
    · have := (h.notproc hsp).2.1
      rw [hc] at this
      cases this
    · rfl
  have hwi : s.waiters = [i] := by
    obtain ⟨k, hck, hwk⟩ := h.proc hp
    rw [hc] at hck
    obtain rfl := Option.some.inj hck
    exact hwk
  have hM := invAll_markJobCompleted s i r h.base hc
  have hmem : i ∈ (markJobCompleted s i r).waiters := by
    show i ∈ s.waiters
    rw [hwi]
    exact List.mem_singleton_self i
  show InvNP (resumeWaiter (markJobCompleted s i r) i)
  unfold resumeWaiter
  rw [if_pos hmem]
  have herase : (markJobCompleted s i r).waiters.erase i = [] := by
    show s.waiters.erase i = []
    rw [hwi]
    simp
  have hMjobs : ({ markJobCompleted s i r with
      waiters := (markJobCompleted s i r).waiters.erase i } : QState).jobs =
      setCompleted s.jobs i r := rfl
  have hbase2 : InvAll { markJobCompleted s i r with
      waiters := (markJobCompleted s i r).waiters.erase i } :=
    invAll_waiters _ _ hM rfl
  have hbase : InvAll (loopStep { markJobCompleted s i r with
      waiters := (markJobCompleted s i r).waiters.erase i }) :=
    invAll_loopStep _ hbase2
  have hik : i ∉ s.queue := h.base.cur_queue i hc
  cases hq : s.queue with
  | nil =>
      have hls : loopStep { markJobCompleted s i r with
          waiters := (markJobCompleted s i r).waiters.erase i } =
          { markJobCompleted s i r with
            waiters := (markJobCompleted s i r).waiters.erase i,
            processing := false,
            events := (markJobCompleted s i r).events ++ [Ev.queueEmpty] } := by
        have hq2 : (markJobCompleted s i r).queue = [] := hq
        simp [loopStep, hq2]
      rw [hls] at hbase ⊢
      refine ⟨hbase, ?_, ?_, ?_, ?_⟩
      · intro _
        exact ⟨hq, rfl, herase⟩
      · intro hcontra
        cases hcontra
      · show finalizedIds ((s.events ++ [Ev.jobCompleted i]) ++ [Ev.queueEmpty]) ++ [] ++
          s.queue = List.range s.totalJobs
        rw [finalizedIds_append, finalizedIds_append]
        have hpre := h.fifo
        rw [hc, hq] at hpre
        simp only [Option.toList_some, List.append_nil] at hpre
        rw [hq]
        simpa using hpre
      · intro j hj hst
        rw [hMjobs] at hj
        simp only [setCompleted, List.mem_map] at hj
        obtain ⟨j0, hj0, rfl⟩ := hj
        by_cases hji : j0.id = i
        · rw [if_pos hji] at hst
          cases hst
        · rw [if_neg hji] at hst ⊢
          have := h.proc_status j0 hj0 hst
          rw [hc] at this
          exact absurd (Option.some.inj this).symm hji
  | cons k rest =>
      have hkne : i ≠ k := by
        intro hcon
        rw [hq, hcon] at hik
        exact hik (List.mem_cons_self _ _)
      have hls : loopStep { markJobCompleted s i r with
          waiters := (markJobCompleted s i r).waiters.erase i } =
          { markJobCompleted s i r with
            jobs := setStatus (setCompleted s.jobs i r) k JobStatus.processing,
            queue := rest,
            current := some k,
            waiters := (markJobCompleted s i r).waiters.erase i ++ [k],
            events := (markJobCompleted s i r).events ++
              [Ev.jobStarted k, Ev.printRequest k] } := by
        have hq2 : (markJobCompleted s i r).queue = k :: rest := hq
        simp [loopStep, hq2]
        rfl
      rw [hls] at hbase ⊢
      refine ⟨hbase, ?_, ?_, ?_, ?_⟩
      · intro hcontra
        rw [show ({ markJobCompleted s i r with
            jobs := setStatus (setCompleted s.jobs i r) k JobStatus.processing,
            queue := rest,
            current := some k,
            waiters := (markJobCompleted s i r).waiters.erase i ++ [k],
            events := (markJobCompleted s i r).events ++
              [Ev.jobStarted k, Ev.printRequest k] } : QState).processing =
          s.processing from rfl, hp] at hcontra
        cases hcontra
      · intro _
        refine ⟨k, rfl, ?_⟩
        show (markJobCompleted s i r).waiters.erase i ++ [k] = [k]
        rw [herase]
        rfl
      · show finalizedIds ((s.events ++ [Ev.jobCompleted i]) ++
          [Ev.jobStarted k, Ev.printRequest k]) ++ [k] ++ rest = List.range s.totalJobs
        rw [finalizedIds_append, finalizedIds_append]
        have hpre := h.fifo
        rw [hc, hq] at hpre
        simp only [Option.toList_some] at hpre
        simp only [finalizedIds_jobStarted, finalizedIds_printRequest, finalizedIds_nil,
          finalizedIds_jobCompleted, List.append_nil]
        rw [← hpre]
        simp [List.append_assoc]
      · intro j hj hst
        show some k = some j.id
        simp only [setStatus, setCompleted, List.mem_map] at hj
        obtain ⟨j0, ⟨a, ha, rfl⟩, rfl⟩ := hj
        by_cases hai : a.id = i
        · simp [hai, hkne] at hst
        · simp only [if_neg hai] at hst ⊢
          by_cases hak : a.id = k
          · simp [hak]
          · simp only [if_neg hak] at hst ⊢
            have := h.proc_status a ha hst
            rw [hc] at this
            exact absurd (Option.some.inj this).symm hai

theorem invNP_fail (s : QState) (e : Err) (h : InvNP s) :
    InvNP (failCurrentJob s e) := by
  unfold failCurrentJob
  cases hc : s.current with
  | none => exact h
  | some i =>
  have hp : s.processing = true := by
    cases hsp : s.processing
    · have := (h.notproc hsp).2.1
      rw [hc] at this
      cases this
    · rfl
  have hwi : s.waiters = [i] := by
    obtain ⟨k, hck, hwk⟩ := h.proc hp
    rw [hc] at hck
    obtain rfl := Option.some.inj hck
    exact hwk
  have hM := invAll_markJobFailed s i e h.base hc
  have hmem : i ∈ (markJobFailed s i e).waiters := by
    show i ∈ s.waiters
    rw [hwi]
    exact List.mem_singleton_self i
  show InvNP (resumeWaiter (markJobFailed s i e) i)
  unfold resumeWaiter
  rw [if_pos hmem]
  have herase : (markJobFailed s i e).waiters.erase i = [] := by
    show s.waiters.erase i = []
    rw [hwi]
    simp
  have hbase2 : InvAll { markJobFailed s i e with
      waiters := (markJobFailed s i e).waiters.erase i } :=
    invAll_waiters _ _ hM rfl
  have hbase : InvAll (loopStep { markJobFailed s i e with
      waiters := (markJobFailed s i e).waiters.erase i }) :=
    invAll_loopStep _ hbase2
  have hik : i ∉ s.queue := h.base.cur_queue i hc
  cases hq : s.queue with
  | nil =>
      have hls : loopStep { markJobFailed s i e with
          waiters := (markJobFailed s i e).waiters.erase i } =
          { markJobFailed s i e with
            waiters := (markJobFailed s i e).waiters.erase i,
            processing := false,
            events := (markJobFailed s i e).events ++ [Ev.queueEmpty] } := by
        have hq2 : (markJobFailed s i e).queue = [] := hq
        simp [loopStep, hq2]
      rw [hls] at hbase ⊢
      refine ⟨hbase, ?_, ?_, ?_, ?_⟩
      · intro _
        exact ⟨hq, rfl, herase⟩
      · intro hcontra
        cases hcontra
      · show finalizedIds ((s.events ++ [Ev.jobFailed i]) ++ [Ev.queueEmpty]) ++ [] ++
          s.queue = List.range s.totalJobs
        rw [finalizedIds_append, finalizedIds_append]
        have hpre := h.fifo
        rw [hc, hq] at hpre
        simp only [Option.toList_some, List.append_nil] at hpre
        rw [hq]
        simpa using hpre
      · intro j hj hst
        have hj2 : j ∈ setFailed s.jobs i e := hj
        simp only [setFailed, List.mem_map] at hj2
        obtain ⟨j0, hj0, rfl⟩ := hj2
        by_cases hji : j0.id = i
        · rw [if_pos hji] at hst
          cases hst
        · rw [if_neg hji] at hst ⊢
          have := h.proc_status j0 hj0 hst
          rw [hc] at this
          exact absurd (Option.some.inj this).symm hji
  | cons k rest =>
      have hkne : i ≠ k := by
        intro hcon
        rw [hq, hcon] at hik
        exact hik (List.mem_cons_self _ _)
      have hls : loopStep { markJobFailed s i e with
          waiters := (markJobFailed s i e).waiters.erase i } =
          { markJobFailed s i e with
            jobs := setStatus (setFailed s.jobs i e) k JobStatus.processing,
            queue := rest,
            current := some k,
            waiters := (markJobFailed s i e).waiters.erase i ++ [k],
            events := (markJobFailed s i e).events ++
              [Ev.jobStarted k, Ev.printRequest k] } := by
        have hq2 : (markJobFailed s i e).queue = k :: rest := hq
        simp [loopStep, hq2]
        rfl
      rw [hls] at hbase ⊢
      refine ⟨hbase, ?_, ?_, ?_, ?_⟩
      · intro hcontra
        rw [show ({ markJobFailed s i e with
            jobs := setStatus (setFailed s.jobs i e) k JobStatus.processing,
            queue := rest,
            current := some k,
            waiters := (markJobFailed s i e).waiters.erase i ++ [k],
            events := (markJobFailed s i e).events ++
              [Ev.jobStarted k, Ev.printRequest k] } : QState).processing =
          s.processing from rfl, hp] at hcontra
        cases hcontra
      · intro _
        refine ⟨k, rfl, ?_⟩
        show (markJobFailed s i e).waiters.erase i ++ [k] = [k]
        rw [herase]
        rfl
      · show finalizedIds ((s.events ++ [Ev.jobFailed i]) ++
          [Ev.jobStarted k, Ev.printRequest k]) ++ [k] ++ rest = List.range s.totalJobs
        rw [finalizedIds_append, finalizedIds_append]
        have hpre := h.fifo
        rw [hc, hq] at hpre
        simp only [Option.toList_some] at hpre
        simp only [finalizedIds_jobStarted, finalizedIds_printRequest, finalizedIds_nil,
          finalizedIds_jobFailed, List.append_nil]
        rw [← hpre]
        simp [List.append_assoc]
      · intro j hj hst
        show some k = some j.id
        simp only [setStatus, setFailed, List.mem_map] at hj
        obtain ⟨j0, ⟨a, ha, rfl⟩, rfl⟩ := hj
        by_cases hai : a.id = i
        · simp [hai, hkne] at hst
        · simp only [if_neg hai] at hst ⊢
          by_cases hak : a.id = k
          · simp [hak]
          · simp only [if_neg hak] at hst ⊢
            have := h.proc_status a ha hst
            rw [hc] at this
            exact absurd (Option.some.inj this).symm hai

theorem invNP_resumeQ (s : QState) (h : InvNP s) : InvNP (resumeQ s) := by
  unfold resumeQ
  split
  · rename_i hg
    exfalso
    exact hg.2 (h.notproc hg.1).1
  · exact h

theorem invNP_clear (s : QState) (h : InvNP s) : InvNP (clearQueue s).2 := by
  have hbase := invAll_clearQueue s h.base
  by_cases hp : s.processing = true
  · rw [show (clearQueue s).2 = s from by unfold clearQueue; rw [if_pos hp]]
    exact h
  · have hp0 : s.processing = false := by
      cases hsp : s.processing
      · rfl
      · exact absurd hsp hp
    obtain ⟨hq0, hc0, hw0⟩ := h.notproc hp0
    have hcq : (clearQueue s).2 =
        { s with
          queue := [],
          events := s.events ++ [Ev.queueCleared s.queue.length] } := by
      unfold clearQueue
      rw [if_neg hp]
    rw [hcq] at hbase ⊢
    refine ⟨hbase, ?_, ?_, ?_, ?_⟩
    · intro _
      exact ⟨rfl, hc0, hw0⟩
    · intro hcontra
      have hcontra2 : s.processing = true := hcontra
      rw [hp0] at hcontra2
      cases hcontra2
    · show finalizedIds (s.events ++ [Ev.queueCleared s.queue.length]) ++
        s.current.toList ++ [] = List.range s.totalJobs
      rw [finalizedIds_append]
      have hpre := h.fifo
      rw [hq0] at hpre
      simpa using hpre
    · intro j hj hst
      exact h.proc_status j hj hst

theorem invNP_step (s : QState) (op : Op) (hop : op ≠ Op.pauseOp) (h : InvNP s) :
    InvNP (step s op) := by
  cases op with
  | add t c => exact invNP_add s t c h
  | complete r => exact invNP_complete s r h
  | failOp m st => exact invNP_fail s (Err.mk m st) h
  | pauseOp => exact absurd rfl hop
  | resumeOp => exact invNP_resumeQ s h
  | clearOp => exact invNP_clear s h

theorem invNP_initQ : InvNP initQ := by
  refine ⟨invAll_initQ, ?_, ?_, ?_, ?_⟩
  · intro _
    exact ⟨rfl, rfl, rfl⟩
  · intro hcontra
    cases hcontra
  · rfl
  · intro j hj
    cases hj

theorem invNP_foldl (ops : List Op) (s : QState) (h : InvNP s)
    (hops : Op.pauseOp ∉ ops) : InvNP (ops.foldl step s) := by
  induction ops generalizing s with
  | nil => exact h
  | cons op rest ih =>
      have hop : op ≠ Op.pauseOp := by
        intro hcon
        exact hops (hcon ▸ List.mem_cons_self _ _)
      have hrest : Op.pauseOp ∉ rest := by
        intro hcon
        exact hops (List.mem_cons_of_mem _ hcon)
      exact ih (step s op) (invNP_step s op hop h) hrest

theorem invNP_reachable (s : QState) (h : ReachableNoPause s) : InvNP s := by
  obtain ⟨ops, hops, rfl⟩ := h
  exact invNP_foldl ops initQ invNP_initQ hops

/-! ## Consequences of the invariants -/

theorem processing_count_le_one (s : QState) (h : InvNP s) :
    (s.jobs.filter (fun j => j.status == JobStatus.processing)).length ≤ 1 := by
  cases hc : s.current with
  | none =>
      have hnil : s.jobs.filter (fun j => j.status == JobStatus.processing) = [] := by
        rw [List.filter_eq_nil_iff]
        intro j hj hcon
        have hst : j.status = JobStatus.processing := by simpa using hcon
        have := h.proc_status j hj hst
        rw [hc] at this
        cases this
      rw [hnil]
      simp
  | some c =>
      have hsub : List.Sublist
          ((s.jobs.filter fun j => j.status == JobStatus.processing).map Job.id)
          (s.jobs.map Job.id) := List.Sublist.map Job.id (List.filter_sublist _)
      have hnd : ((s.jobs.filter fun j => j.status == JobStatus.processing).map Job.id).Nodup := by
        have hnd2 : (s.jobs.map Job.id).Nodup := by
          rw [h.base.ids_eq]
          exact List.nodup_range _
        exact hnd2.sublist hsub
      have hconst : ∀ x ∈ (s.jobs.filter fun j => j.status == JobStatus.processing).map Job.id,
          x = c := by
        intro x hx
        obtain ⟨j, hj, rfl⟩ := List.mem_map.1 hx
        obtain ⟨hjm, hjs⟩ := List.mem_filter.1 hj
        have hst : j.status = JobStatus.processing := by simpa using hjs
        have := h.proc_status j hjm hst
        rw [hc] at this
        exact (Option.some.inj this).symm
      have := nodup_const_length_le_one _ c hnd hconst
      simpa using this

theorem finalized_eq_range (s : QState) (h : InvNP s) :
    finalizedIds s.events = List.range (s.completedJobs + s.failedJobs) := by
  have h1 : finalizedIds s.events ++ (s.current.toList ++ s.queue) =
      List.range s.totalJobs := by
    rw [← List.append_assoc]
    exact h.fifo
  have h2 := eq_range_of_append_eq_range _ _ _ h1
  rw [h.base.counts_eq]
  exact h2

theorem processing_iff_current (s : QState) (h : InvNP s) :
    s.processing = true ↔ s.current.isSome = true := by
  constructor
  · intro hp
    obtain ⟨i, hci, _⟩ := h.proc hp
    rw [hci]
    rfl
  · intro hcur
    cases hsp : s.processing
    · have := (h.notproc hsp).2.1
      rw [this] at hcur
      cases hcur
    · rfl

theorem drainResolvesNow_iff (s : QState) :
    drainResolvesNow s = true ↔ s.queue = [] ∧ s.processing = false := by
  unfold drainResolvesNow
  constructor
  · intro hd
    rw [Bool.and_eq_true] at hd
    refine ⟨?_, ?_⟩
    · exact List.isEmpty_iff.1 hd.1
    · cases hsp : s.processing
      · rfl
      · rw [hsp] at hd
        cases hd.2
  · intro ⟨hq, hp⟩
    rw [hq, hp]
    rfl

theorem drain_all_finalized (s : QState) (h : InvNP s)
    (_hq : s.queue = []) (hp : s.processing = false) :
    s.current = none ∧ s.completedJobs + s.failedJobs = s.totalJobs := by
  obtain ⟨hq0, hc0, hw0⟩ := h.notproc hp
  refine ⟨hc0, ?_⟩
  have hf := h.fifo
  rw [hq0, hc0] at hf
  simp only [Option.toList_none, List.append_nil] at hf
  rw [h.base.counts_eq, hf, List.length_range]

theorem counts_le_total (s : QState) (h : InvAll s) :
    s.completedJobs + s.failedJobs ≤ s.totalJobs := by
  rw [h.counts_eq, h.total_eq]
  exact nodup_lt_length_le _ _ h.fin_nodup h.fin_lt

theorem findJob_enqueueState (s : QState) (h : InvAll s) (t : String) (c : Int) :
    (enqueueState s t c).jobs.find? (fun j => j.id == s.jobs.length) =
      some { id := s.jobs.length, template := t, copies := c,
             status := JobStatus.queued } := by
  show (s.jobs ++ [_]).find? _ = _
  rw [List.find?_append]
  have hnone : s.jobs.find? (fun j => j.id == s.jobs.length) = none := by
    rw [List.find?_eq_none]
    intro j hj
    simp only [beq_iff_eq]
    exact Nat.ne_of_lt (id_lt_of_mem s.jobs h.ids_eq j hj)
  rw [hnone]
  simp

theorem loopStep_total (s : QState) : (loopStep s).totalJobs = s.totalJobs := by
  rcases hq : s.queue with _ | ⟨i, rest⟩ <;> simp [loopStep, hq]

theorem processQueue_total (s : QState) :
    (processQueue s).totalJobs = s.totalJobs := by
  unfold processQueue
  split
  · rfl
  · rw [show (loopStep { s with processing := true }).totalJobs =
      ({ s with processing := true } : QState).totalJobs from loopStep_total _]

theorem findJob_map_update (jobs : List Job) (f : Job → Job)
    (hf : ∀ j, (f j).id = j.id) {α : Type} (g : Job → α)
    (hg : ∀ j, g (f j) = g j) (k : Nat) :
    ((jobs.map f).find? (fun j => j.id == k)).map g =
      (jobs.find? (fun j => j.id == k)).map g := by
  rw [find?_update jobs f hf k]
  cases hres : jobs.find? (fun j => j.id == k)
  · rfl
  · show some (g (f _)) = some (g _)
    rw [hg]

theorem processQueue_findJob (s : QState) (k : Nat) {α : Type} (g : Job → α)
    (hg : ∀ (j : Job) (st : JobStatus), g { j with status := st } = g j) :
    ((processQueue s).jobs.find? (fun j => j.id == k)).map g =
      (s.jobs.find? (fun j => j.id == k)).map g := by
  unfold processQueue
  split
  · rfl
  · show ((loopStep { s with processing := true }).jobs.find?
      (fun j => j.id == k)).map g = _
    rcases hq : s.queue with _ | ⟨i, rest⟩
    · have hq2 : ({ s with processing := true } : QState).queue = [] := hq
      simp [loopStep, hq2]
    · have hq2 : ({ s with processing := true } : QState).queue = i :: rest := hq
      simp only [loopStep, hq2]
      exact findJob_map_update s.jobs _ (fun j => by split <;> rfl) g
        (fun j => by split <;> simp [hg]) k

/-! ## Claim theorems -/

/-- Claim C1, counterexample: the op sequence enqueue a, pause, enqueue b —
a sequence of enqueue and pause calls — leaves two job records
simultaneously in `processing` status, refuting that at most one job is ever
processing for every sequence of enqueue, pause, resume, completeCurrent and
failCurrent calls. -/
theorem C1_counterexample_two_processing :
    ((run [Op.add "a" 1, Op.pauseOp, Op.add "b" 1]).jobs.filter
      (fun j => j.status == JobStatus.processing)).length = 2 := by decide

/-- Claim C1, amended: in every execution in which pause is never called, at
most one job is ever in `processing` status, the finalized jobs are exactly
an initial segment of the ids in enqueue (queuedAt) order — FIFO
finalization — and ids are assigned in enqueue order. -/
theorem C1_single_processing_fifo (s : QState) (h : ReachableNoPause s) :
    (s.jobs.filter (fun j => j.status == JobStatus.processing)).length ≤ 1
    ∧ finalizedIds s.events = List.range (s.completedJobs + s.failedJobs)
    ∧ s.jobs.map Job.id = List.range s.totalJobs := by
  have hnp := invNP_reachable s h
  refine ⟨processing_count_le_one s hnp, finalized_eq_range s hnp, ?_⟩
  rw [hnp.base.total_eq]
  exact hnp.base.ids_eq

/-- Witness for the amended C1 theorem at a concrete pause-free trace. -/
theorem C1_single_processing_fifo_witness :
    ((run [Op.add "a" 1, Op.add "b" 1, Op.complete "ok"]).jobs.filter
      (fun j => j.status == JobStatus.processing)).length ≤ 1
    ∧ finalizedIds (run [Op.add "a" 1, Op.add "b" 1, Op.complete "ok"]).events =
      List.range ((run [Op.add "a" 1, Op.add "b" 1, Op.complete "ok"]).completedJobs +
        (run [Op.add "a" 1, Op.add "b" 1, Op.complete "ok"]).failedJobs)
    ∧ (run [Op.add "a" 1, Op.add "b" 1, Op.complete "ok"]).jobs.map Job.id =
      List.range (run [Op.add "a" 1, Op.add "b" 1, Op.complete "ok"]).totalJobs :=
  C1_single_processing_fifo _
    ⟨[Op.add "a" 1, Op.add "b" 1, Op.complete "ok"], by decide, rfl⟩

/-- Claim C2, counterexample: a message whose copies field is -3 parses to
copies = -3 (`parseInt(-3) || 1` is -3), and enqueue accepts it: the job
sits in the backlog with the non-positive copies value -3, so copies is not
validated as a positive integer. -/
theorem C2_counterexample_negative_copies :
    parseCopies (some (-3)) = -3
    ∧ (run [Op.add "x" 1, Op.add "label" (-3)]).queue = [1]
    ∧ (findJob (run [Op.add "x" 1, Op.add "label" (-3)]) 1).map Job.copies =
      some (-3)
    ∧ (findJob (run [Op.add "x" 1, Op.add "label" (-3)]) 1).map Job.status =
      some JobStatus.queued := by decide

/-- Claim C2, amended: enqueue rejects a missing or empty template with the
invalid-job error, and a rejected job never enters the backlog or the stats
(the state is unchanged); copies is defaulted to 1 when the message field is
absent or zero, before the record is queued, but is not otherwise validated:
the accepted record is queued with its copies value unchanged. -/
theorem C2_validation (s : QState) (t : String) (c : Int)
    (h : Reachable s) (ht : t ≠ "") :
    (∀ c2 : Int, addJob s "" c2 = Except.error "Invalid job: missing template")
    ∧ (∀ c2 : Int, step s (Op.add "" c2) = s)
    ∧ parseCopies none = 1
    ∧ parseCopies (some 0) = 1
    ∧ ∃ s2, addJob s t c = Except.ok (s.jobs.length, s2)
        ∧ s2.totalJobs = s.totalJobs + 1
        ∧ (findJob s2 s.jobs.length).map Job.template = some t
        ∧ (findJob s2 s.jobs.length).map Job.copies = some c := by
  have hA : InvAll s := invAll_reachable s h
  refine ⟨?_, ?_, rfl, rfl, ?_⟩
  · intro c2
    unfold addJob
    rw [if_pos rfl]
  · intro c2
    show (match addJob s "" c2 with
      | Except.ok (_, s2) => s2
      | Except.error _ => s) = s
    unfold addJob
    rw [if_pos rfl]
  · refine ⟨(if (enqueueState s t c).processing = true then enqueueState s t c
      else processQueue (enqueueState s t c)), ?_, ?_, ?_, ?_⟩
    · unfold addJob
      rw [if_neg ht]
    · by_cases hp : (enqueueState s t c).processing = true
      · rw [if_pos hp]
        rfl
      · rw [if_neg hp]
        rw [processQueue_total]
        rfl
    · by_cases hp : (enqueueState s t c).processing = true
      · rw [if_pos hp]
        show ((enqueueState s t c).jobs.find? (fun j => j.id == s.jobs.length)).map
          Job.template = some t
        rw [findJob_enqueueState s hA t c]
        rfl
      · rw [if_neg hp]
        show ((processQueue (enqueueState s t c)).jobs.find?
          (fun j => j.id == s.jobs.length)).map Job.template = some t
        rw [processQueue_findJob _ _ Job.template (fun j st => rfl)]
        rw [findJob_enqueueState s hA t c]
        rfl
    · by_cases hp : (enqueueState s t c).processing = true
      · rw [if_pos hp]
        show ((enqueueState s t c).jobs.find? (fun j => j.id == s.jobs.length)).map
          Job.copies = some c
        rw [findJob_enqueueState s hA t c]
        rfl
      · rw [if_neg hp]
        show ((processQueue (enqueueState s t c)).jobs.find?
          (fun j => j.id == s.jobs.length)).map Job.copies = some c
        rw [processQueue_findJob _ _ Job.copies (fun j st => rfl)]
        rw [findJob_enqueueState s hA t c]
        rfl

/-- Witness for the amended C2 theorem at the empty initial queue. -/
theorem C2_validation_witness :
    (∀ c2 : Int, addJob initQ "" c2 = Except.error "Invalid job: missing template")
    ∧ (∀ c2 : Int, step initQ (Op.add "" c2) = initQ)
    ∧ parseCopies none = 1
    ∧ parseCopies (some 0) = 1
    ∧ ∃ s2, addJob initQ "label" (parseCopies none) =
          Except.ok (initQ.jobs.length, s2)
        ∧ s2.totalJobs = initQ.totalJobs + 1
        ∧ (findJob s2 initQ.jobs.length).map Job.template = some "label"
        ∧ (findJob s2 initQ.jobs.length).map Job.copies = some (parseCopies none) :=
  C2_validation initQ "label" (parseCopies none) ⟨[], rfl⟩ (by decide)

/-- Claim C3 (code bug): pause does not stop the processing loop.  After
enqueueing jobs a and b, pausing while a is processing (queuePaused emitted,
resume never called), and completing a, the code dequeues b and starts
processing it: the `while` loop of `processQueue` never reads the
`processing` flag that pause clears. -/
theorem C3_pause_does_not_stop_dequeue :
    Ev.queuePaused ∈
      (run [Op.add "a" 1, Op.add "b" 1, Op.pauseOp, Op.complete "r"]).events
    ∧ Ev.queueResumed ∉
      (run [Op.add "a" 1, Op.add "b" 1, Op.pauseOp, Op.complete "r"]).events
    ∧ (run [Op.add "a" 1, Op.add "b" 1, Op.pauseOp, Op.complete "r"]).queue = []
    ∧ (run [Op.add "a" 1, Op.add "b" 1, Op.pauseOp, Op.complete "r"]).current = some 1
    ∧ (findJob (run [Op.add "a" 1, Op.add "b" 1, Op.pauseOp, Op.complete "r"]) 1).map
        Job.status = some JobStatus.processing := by decide

/-- Claim C4, counterexample: after enqueue a, enqueue b, pause — job a is
still in `processing` status, yet clear() succeeds (returns true rather than
failing busy) and empties the backlog, because its guard reads the
`processing` flag that pause cleared, not whether a job is processing. -/
theorem C4_counterexample_clear_while_processing :
    (findJob (run [Op.add "a" 1, Op.add "b" 1, Op.pauseOp]) 0).map Job.status =
      some JobStatus.processing
    ∧ (run [Op.add "a" 1, Op.add "b" 1, Op.pauseOp]).queue = [1]
    ∧ (clearQueue (run [Op.add "a" 1, Op.add "b" 1, Op.pauseOp])).1 = true
    ∧ (clearQueue (run [Op.add "a" 1, Op.add "b" 1, Op.pauseOp])).2.queue = [] := by
  decide

/-- Claim C4, amended: in every execution in which pause is never called,
clear() fails (returns busy) exactly when a job is currently processing,
leaving the whole state unchanged; otherwise it empties the backlog and
emits the number of jobs removed. -/
theorem C4_clear_guard (s : QState) (h : ReachableNoPause s) :
    (s.current.isSome = true → clearQueue s = (false, s))
    ∧ (s.current = none → (clearQueue s).1 = true
        ∧ (clearQueue s).2.queue = []
        ∧ (clearQueue s).2.events = s.events ++ [Ev.queueCleared s.queue.length]) := by
  have hnp := invNP_reachable s h
  constructor
  · intro hcur
    have hp : s.processing = true := (processing_iff_current s hnp).2 hcur
    unfold clearQueue
    rw [if_pos hp]
  · intro hcur
    have hp : s.processing = false := by
      cases hsp : s.processing
      · rfl
      · obtain ⟨i, hci, _⟩ := hnp.proc hsp
        rw [hcur] at hci
        cases hci
    have hneg : ¬ s.processing = true := by
      rw [hp]
      exact Bool.false_ne_true
    unfold clearQueue
    rw [if_neg hneg]
    exact ⟨rfl, rfl, rfl⟩

/-- Witness for the amended C4 theorem at a concrete pause-free trace with a
job in flight. -/
theorem C4_clear_guard_witness :
    ((run [Op.add "a" 1, Op.add "b" 1]).current.isSome = true →
      clearQueue (run [Op.add "a" 1, Op.add "b" 1]) =
        (false, run [Op.add "a" 1, Op.add "b" 1]))
    ∧ ((run [Op.add "a" 1, Op.add "b" 1]).current = none →
        (clearQueue (run [Op.add "a" 1, Op.add "b" 1])).1 = true
        ∧ (clearQueue (run [Op.add "a" 1, Op.add "b" 1])).2.queue = []
        ∧ (clearQueue (run [Op.add "a" 1, Op.add "b" 1])).2.events =
          (run [Op.add "a" 1, Op.add "b" 1]).events ++
            [Ev.queueCleared (run [Op.add "a" 1, Op.add "b" 1]).queue.length]) :=
  C4_clear_guard _ ⟨[Op.add "a" 1, Op.add "b" 1], by decide, rfl⟩

/-- Claim C5, counterexample: after enqueue a, pause — the backlog is empty
and the `processing` flag is clear, so drain() resolves immediately, yet job
a is still processing and not finalized, and completeCurrent still accepts a
completion afterwards (it changes the state). -/
theorem C5_counterexample_drain_while_processing :
    drainResolvesNow (run [Op.add "a" 1, Op.pauseOp]) = true
    ∧ (findJob (run [Op.add "a" 1, Op.pauseOp]) 0).map Job.status =
      some JobStatus.processing
    ∧ (run [Op.add "a" 1, Op.pauseOp]).completedJobs +
        (run [Op.add "a" 1, Op.pauseOp]).failedJobs = 0
    ∧ (run [Op.add "a" 1, Op.pauseOp]).totalJobs = 1
    ∧ completeCurrentJob (run [Op.add "a" 1, Op.pauseOp]) "r" ≠
        run [Op.add "a" 1, Op.pauseOp] := by decide

/-- Claim C5, amended: in every execution in which pause is never called,
when drain() resolves (backlog empty and `processing` flag clear) no job is
processing, every job ever enqueued has been finalized (so with queued jobs
it cannot resolve before all of them finalize), and completeCurrent and
failCurrent are no-ops from then on: no new completion is accepted. -/
theorem C5_drain (s : QState) (h : ReachableNoPause s)
    (hd : drainResolvesNow s = true) :
    s.current = none
    ∧ s.completedJobs + s.failedJobs = s.totalJobs
    ∧ (∀ r, completeCurrentJob s r = s)
    ∧ (∀ e, failCurrentJob s e = s) := by
  have hnp := invNP_reachable s h
  obtain ⟨hq, hp⟩ := (drainResolvesNow_iff s).1 hd
  obtain ⟨hc, hcount⟩ := drain_all_finalized s hnp hq hp
  refine ⟨hc, hcount, ?_, ?_⟩
  · intro r
    unfold completeCurrentJob
    rw [hc]
  · intro e
    unfold failCurrentJob
    rw [hc]

/-- Witness for the amended C5 theorem at a concrete drained trace. -/
theorem C5_drain_witness :
    (run [Op.add "a" 1, Op.complete "ok"]).current = none
    ∧ (run [Op.add "a" 1, Op.complete "ok"]).completedJobs +
        (run [Op.add "a" 1, Op.complete "ok"]).failedJobs =
      (run [Op.add "a" 1, Op.complete "ok"]).totalJobs
    ∧ (∀ r, completeCurrentJob (run [Op.add "a" 1, Op.complete "ok"]) r =
        run [Op.add "a" 1, Op.complete "ok"])
    ∧ (∀ e, failCurrentJob (run [Op.add "a" 1, Op.complete "ok"]) e =
        run [Op.add "a" 1, Op.complete "ok"]) :=
  C5_drain _ ⟨[Op.add "a" 1, Op.complete "ok"], by decide, rfl⟩ (by decide)

/-- Claim C6: in any reachable state with a job in flight and a non-empty
backlog, failCurrent finalizes the current job as `failed` with the reported
error (message and stack) retained verbatim in the record's error field, and
the loop continues on its own: the head of the backlog is dequeued and set
processing — a single job failure never halts the queue. -/
theorem C6_fail_continues (s : QState) (h : Reachable s) (i k : Nat)
    (rest : List Nat) (hc : s.current = some i) (hq : s.queue = k :: rest)
    (e : Err) :
    (findJob (failCurrentJob s e) i).map Job.status = some JobStatus.failed
    ∧ (findJob (failCurrentJob s e) i).map Job.error = some (some e)
    ∧ (failCurrentJob s e).current = some k
    ∧ (findJob (failCurrentJob s e) k).map Job.status = some JobStatus.processing
    ∧ (failCurrentJob s e).queue = rest
    ∧ (failCurrentJob s e).failedJobs = s.failedJobs + 1 := by
  have hA := invAll_reachable s h
  have hmem : i ∈ (markJobFailed s i e).waiters := hA.cur_wait i hc
  have hilt : i < s.jobs.length := hA.cur_lt i hc
  have hklt : k < s.jobs.length := hA.queue_lt k (by rw [hq]; exact List.mem_cons_self _ _)
  have hik : i ∉ s.queue := hA.cur_queue i hc
  have hne : i ≠ k := by
    intro hcon
    rw [hq, hcon] at hik
    exact hik (List.mem_cons_self _ _)
  have hfc : failCurrentJob s e =
      loopStep { markJobFailed s i e with
        waiters := (markJobFailed s i e).waiters.erase i } := by
    unfold failCurrentJob
    rw [hc]
    show resumeWaiter (markJobFailed s i e) i = _
    unfold resumeWaiter
    rw [if_pos hmem]
  have hq2 : (markJobFailed s i e).queue = k :: rest := hq
  have hls : failCurrentJob s e =
      { markJobFailed s i e with
        jobs := setStatus (setFailed s.jobs i e) k JobStatus.processing,
        queue := rest,
        current := some k,
        waiters := (markJobFailed s i e).waiters.erase i ++ [k],
        events := (markJobFailed s i e).events ++
          [Ev.jobStarted k, Ev.printRequest k] } := by
    rw [hfc]
    simp [loopStep, hq2]
    rfl
  obtain ⟨ji, hjif, hjiid⟩ := find?_id_eq_some s.jobs hA.ids_eq i hilt
  obtain ⟨jk, hjkf, hjkid⟩ := find?_id_eq_some s.jobs hA.ids_eq k hklt
  have h1 := find?_update (setFailed s.jobs i e)
    (fun j => if j.id = k then { j with status := JobStatus.processing } else j)
    (fun j => by dsimp only; split <;> rfl) i
  have h2 := find?_update s.jobs
    (fun j => if j.id = i then
      { j with status := JobStatus.failed, error := some e } else j)
    (fun j => by dsimp only; split <;> rfl) i
  rw [show (setFailed s.jobs i e).find? (fun j => j.id == i) =
      (s.jobs.find? (fun j => j.id == i)).map
        (fun j => if j.id = i then
          { j with status := JobStatus.failed, error := some e } else j) from h2,
    hjif] at h1
  have h1k := find?_update (setFailed s.jobs i e)
    (fun j => if j.id = k then { j with status := JobStatus.processing } else j)
    (fun j => by dsimp only; split <;> rfl) k
  have h2k := find?_update s.jobs
    (fun j => if j.id = i then
      { j with status := JobStatus.failed, error := some e } else j)
    (fun j => by dsimp only; split <;> rfl) k
  rw [show (setFailed s.jobs i e).find? (fun j => j.id == k) =
      (s.jobs.find? (fun j => j.id == k)).map
        (fun j => if j.id = i then
          { j with status := JobStatus.failed, error := some e } else j) from h2k,
    hjkf] at h1k
  rw [hls]
  refine ⟨?_, ?_, rfl, ?_, rfl, rfl⟩
  · show ((setStatus (setFailed s.jobs i e) k JobStatus.processing).find?
      (fun j => j.id == i)).map Job.status = some JobStatus.failed
    rw [show (setStatus (setFailed s.jobs i e) k JobStatus.processing).find?
        (fun j => j.id == i) = _ from h1]
    simp [hjiid, hne]
  · show ((setStatus (setFailed s.jobs i e) k JobStatus.processing).find?
      (fun j => j.id == i)).map Job.error = some (some e)
    rw [show (setStatus (setFailed s.jobs i e) k JobStatus.processing).find?
        (fun j => j.id == i) = _ from h1]
    simp [hjiid, hne]
  · show ((setStatus (setFailed s.jobs i e) k JobStatus.processing).find?
      (fun j => j.id == k)).map Job.status = some JobStatus.processing
    rw [show (setStatus (setFailed s.jobs i e) k JobStatus.processing).find?
        (fun j => j.id == k) = _ from h1k]
    simp [hjkid, Ne.symm hne]

/-- Witness for the C6 theorem at a concrete reachable state: a in flight,
b queued. -/
theorem C6_fail_continues_witness :
    (findJob (failCurrentJob (run [Op.add "a" 1, Op.add "b" 1])
        (Err.mk "boom" "trace")) 0).map Job.status = some JobStatus.failed
    ∧ (findJob (failCurrentJob (run [Op.add "a" 1, Op.add "b" 1])
        (Err.mk "boom" "trace")) 0).map Job.error =
      some (some (Err.mk "boom" "trace"))
    ∧ (failCurrentJob (run [Op.add "a" 1, Op.add "b" 1])
        (Err.mk "boom" "trace")).current = some 1
    ∧ (findJob (failCurrentJob (run [Op.add "a" 1, Op.add "b" 1])
        (Err.mk "boom" "trace")) 1).map Job.status = some JobStatus.processing
    ∧ (failCurrentJob (run [Op.add "a" 1, Op.add "b" 1])
        (Err.mk "boom" "trace")).queue = []
    ∧ (failCurrentJob (run [Op.add "a" 1, Op.add "b" 1])
        (Err.mk "boom" "trace")).failedJobs =
      (run [Op.add "a" 1, Op.add "b" 1]).failedJobs + 1 :=
  C6_fail_continues _ ⟨[Op.add "a" 1, Op.add "b" 1], rfl⟩ 0 1 []
    (by decide) (by decide) (Err.mk "boom" "trace")

/-- Claim C7: status classification is a total function on raw status bytes:
with the device available, each recognized byte maps to its classified
label, any unrecognized byte degrades to the unknown label (never a
failure), and with the device not available the classification is the
device-not-available label regardless of the byte.  The Monitor mapping
agrees on the byte-to-label part. -/
theorem C7_classification_total (b : Nat)
    (hb : b ≠ PRINTER_STATUS_READY ∧ b ≠ PRINTER_STATUS_PAPER_OUT ∧
      b ≠ PRINTER_STATUS_CALIBRATING ∧ b ≠ PRINTER_STATUS_LOADING ∧
      b ≠ PRINTER_STATUS_ERROR) :
    (∀ c : Nat, statusToString false c = "device not available")
    ∧ statusToString true PRINTER_STATUS_READY = "ready"
    ∧ statusToString true PRINTER_STATUS_PAPER_OUT = "paper out"
    ∧ statusToString true PRINTER_STATUS_CALIBRATING = "calibrating"
    ∧ statusToString true PRINTER_STATUS_LOADING = "loading"
    ∧ statusToString true PRINTER_STATUS_ERROR = "error"
    ∧ statusToString true b = "unknown (0x" ++ natToHex b ++ ")"
    ∧ printerStatusToString b = "unknown (0x" ++ natToHex b ++ ")"
    ∧ (∀ c : Nat, printerStatusToString c = "ready"
        ∨ printerStatusToString c = "paper out"
        ∨ printerStatusToString c = "calibrating"
        ∨ printerStatusToString c = "loading"
        ∨ printerStatusToString c = "error"
        ∨ printerStatusToString c = "unknown (0x" ++ natToHex c ++ ")") := by
  obtain ⟨h1, h2, h3, h4, h5⟩ := hb
  refine ⟨fun c => rfl, rfl, rfl, rfl, rfl, rfl, ?_, ?_, ?_⟩
  · simp [statusToString, h1, h2, h3, h4, h5]
  · simp [printerStatusToString, h1, h2, h3, h4, h5]
  · intro c
    unfold printerStatusToString
    by_cases hc1 : c = PRINTER_STATUS_READY
    · rw [if_pos hc1]
      exact Or.inl rfl
    rw [if_neg hc1]
    by_cases hc2 : c = PRINTER_STATUS_PAPER_OUT
    · rw [if_pos hc2]
      exact Or.inr (Or.inl rfl)
    rw [if_neg hc2]
    by_cases hc3 : c = PRINTER_STATUS_CALIBRATING
    · rw [if_pos hc3]
      exact Or.inr (Or.inr (Or.inl rfl))
    rw [if_neg hc3]
    by_cases hc4 : c = PRINTER_STATUS_LOADING
    · rw [if_pos hc4]
      exact Or.inr (Or.inr (Or.inr (Or.inl rfl)))
    rw [if_neg hc4]
    by_cases hc5 : c = PRINTER_STATUS_ERROR
    · rw [if_pos hc5]
      exact Or.inr (Or.inr (Or.inr (Or.inr (Or.inl rfl))))
    rw [if_neg hc5]
    exact Or.inr (Or.inr (Or.inr (Or.inr (Or.inr rfl))))

/-- Witness for the C7 theorem at the unrecognized byte 0x19. -/
theorem C7_classification_total_witness :
    (∀ c : Nat, statusToString false c = "device not available")
    ∧ statusToString true PRINTER_STATUS_READY = "ready"
    ∧ statusToString true PRINTER_STATUS_PAPER_OUT = "paper out"
    ∧ statusToString true PRINTER_STATUS_CALIBRATING = "calibrating"
    ∧ statusToString true PRINTER_STATUS_LOADING = "loading"
    ∧ statusToString true PRINTER_STATUS_ERROR = "error"
    ∧ statusToString true 0x19 = "unknown (0x" ++ natToHex 0x19 ++ ")"
    ∧ printerStatusToString 0x19 = "unknown (0x" ++ natToHex 0x19 ++ ")"
    ∧ (∀ c : Nat, printerStatusToString c = "ready"
        ∨ printerStatusToString c = "paper out"
        ∨ printerStatusToString c = "calibrating"
        ∨ printerStatusToString c = "loading"
        ∨ printerStatusToString c = "error"
        ∨ printerStatusToString c = "unknown (0x" ++ natToHex c ++ ")") :=
  C7_classification_total 0x19 (by decide)

/-- Claim C8: with the device available and no print in progress, observing
the same raw byte as the previously recorded status reports no change —
the state is unchanged and no statusChanged event is emitted — while
observing a different byte stores it and emits exactly the new
classification along with the returned code. -/
theorem C8_observe_change_detection (s : PrinterState) (b : Nat)
    (hav : s.deviceAvailable = true) (hpr : s.isPrinting = false) :
    (s.lastStatus = some b →
      getStatus s (some b) = { state := s, ret := b, emits := [] })
    ∧ (s.lastStatus ≠ some b →
        (getStatus s (some b)).state = { s with lastStatus := some b }
        ∧ (getStatus s (some b)).ret = b
        ∧ (getStatus s (some b)).emits = [statusToString true b]) := by
  constructor
  · intro hlast
    simp [getStatus, hav, hpr, hlast]
  · intro hne
    have hne2 : ¬ (some b = s.lastStatus) := fun hcon => hne hcon.symm
    refine ⟨?_, ?_, ?_⟩ <;> simp [getStatus, hav, hpr, hne2]

/-- Witness for the C8 theorem: the spec example — observing 0x18 (ready)
again after ready yields no change; observing 0x30 after ready yields a
change classified paper out. -/
theorem C8_observe_change_detection_witness :
    (getStatus ⟨true, false, some 0x18, false⟩ (some 0x18) =
      { state := ⟨true, false, some 0x18, false⟩, ret := 0x18, emits := [] })
    ∧ ((getStatus ⟨true, false, some 0x18, false⟩ (some 0x30)).state =
        { deviceAvailable := true, isPrinting := false, lastStatus := some 0x30,
          initFailed := false }
      ∧ (getStatus ⟨true, false, some 0x18, false⟩ (some 0x30)).ret = 0x30
      ∧ (getStatus ⟨true, false, some 0x18, false⟩ (some 0x30)).emits =
        [statusToString true 0x30])
    ∧ statusToString true 0x30 = "paper out" :=
  ⟨(C8_observe_change_detection ⟨true, false, some 0x18, false⟩ 0x18 rfl rfl).1 rfl,
   (C8_observe_change_detection ⟨true, false, some 0x18, false⟩ 0x30 rfl rfl).2
     (by decide),
   by decide⟩

/-- Claim C9: retryConnection, called while the device is unavailable with a
successful re-probe (and no print in progress), flips available to true,
clears the init-failure flag, re-reads and stores the fresh status, returns
true, and always emits the reconnected change — in particular, when the
fresh classified state equals the stale cached one, the reconnected change
is still the only emission. -/
theorem C9_retry_reports_change (s : PrinterState) (b : Nat)
    (hav : s.deviceAvailable = false) (hpr : s.isPrinting = false) :
    (retryConnection s true (some b)).state.deviceAvailable = true
    ∧ (retryConnection s true (some b)).state.lastStatus = some b
    ∧ (retryConnection s true (some b)).state.initFailed = false
    ∧ (retryConnection s true (some b)).ok = true
    ∧ "reconnected" ∈ (retryConnection s true (some b)).emits
    ∧ (s.lastStatus = some b →
        (retryConnection s true (some b)).emits = ["reconnected"]) := by
  by_cases hl : s.lastStatus = some b
  · have hg : getStatus { s with deviceAvailable := true, initFailed := false }
        (some b) =
        { state := { s with deviceAvailable := true, initFailed := false },
          ret := b,
          emits := [] } := by
      simp [getStatus, hpr, hl]
    refine ⟨?_, ?_, ?_, ?_, ?_, ?_⟩ <;> simp [retryConnection, hav, hg]
  · have hl2 : ¬ (some b = s.lastStatus) := fun hcon => hl hcon.symm
    have hg : getStatus { s with deviceAvailable := true, initFailed := false }
        (some b) =
        { state :=
            { s with
              deviceAvailable := true,
              initFailed := false,
              lastStatus := some b },
          ret := b,
          emits := [statusToString true b] } := by
      simp [getStatus, hpr, hl2]
    refine ⟨?_, ?_, ?_, ?_, ?_, ?_⟩ <;> simp [retryConnection, hav, hg, hl]

/-- Witness for the C9 theorem: recovery with the fresh status equal to the
stale cached ready status still reports the reconnected change. -/
theorem C9_retry_reports_change_witness :
    (retryConnection ⟨false, false, some 0x18, true⟩ true (some 0x18)).state.deviceAvailable = true
    ∧ (retryConnection ⟨false, false, some 0x18, true⟩ true (some 0x18)).state.lastStatus = some 0x18
    ∧ (retryConnection ⟨false, false, some 0x18, true⟩ true (some 0x18)).state.initFailed = false
    ∧ (retryConnection ⟨false, false, some 0x18, true⟩ true (some 0x18)).ok = true
    ∧ "reconnected" ∈ (retryConnection ⟨false, false, some 0x18, true⟩ true (some 0x18)).emits
    ∧ ((⟨false, false, some 0x18, true⟩ : PrinterState).lastStatus = some 0x18 →
        (retryConnection ⟨false, false, some 0x18, true⟩ true (some 0x18)).emits =
          ["reconnected"]) :=
  C9_retry_reports_change ⟨false, false, some 0x18, true⟩ 0x18 rfl rfl

/-- Claim C10: the stats counters never report more finalized than submitted
jobs; when totalJobs is positive, successRate is the string rendering of
completedJobs / totalJobs * 100 with exactly one decimal digit after the
dot; when totalJobs is zero it is the number 0 — a value of the other
JsVal shape, not a string. -/
theorem C10_stats (s : QState) (h : Reachable s) :
    (getStats s).completedJobs + (getStats s).failedJobs ≤ (getStats s).totalJobs
    ∧ (0 < s.totalJobs →
        (getStats s).successRate =
          JsVal.str (toFixed1 (s.completedJobs * 100) s.totalJobs)
        ∧ ∃ a d2 : Nat, d2 < 10 ∧ (Nat.repr d2).length = 1
            ∧ (getStats s).successRate = JsVal.str (Nat.repr a ++ "." ++ Nat.repr d2))
    ∧ (s.totalJobs = 0 → (getStats s).successRate = JsVal.num 0) := by
  have hA := invAll_reachable s h
  refine ⟨counts_le_total s hA, ?_, ?_⟩
  · intro hpos
    have hsr : (getStats s).successRate =
        JsVal.str (toFixed1 (s.completedJobs * 100) s.totalJobs) := by
      unfold getStats
      rw [if_pos hpos]
    refine ⟨hsr,
      (s.completedJobs * 100 * 10 * 2 + s.totalJobs) / (s.totalJobs * 2) / 10,
      (s.completedJobs * 100 * 10 * 2 + s.totalJobs) / (s.totalJobs * 2) % 10,
      Nat.mod_lt _ (by norm_num), ?_, ?_⟩
    · have hlt : (s.completedJobs * 100 * 10 * 2 + s.totalJobs) /
          (s.totalJobs * 2) % 10 < 10 := Nat.mod_lt _ (by norm_num)
      have hall : ∀ d2 < 10, (Nat.repr d2).length = 1 := by decide
      exact hall _ hlt
    · rw [hsr]
      rfl
  · intro hz
    unfold getStats
    rw [if_neg (by omega)]

/-- Witness for the C10 theorem at a concrete trace with one completed job
(successRate "100.0"). -/
theorem C10_stats_witness :
    (getStats (run [Op.add "a" 1, Op.complete "done"])).completedJobs +
        (getStats (run [Op.add "a" 1, Op.complete "done"])).failedJobs ≤
      (getStats (run [Op.add "a" 1, Op.complete "done"])).totalJobs
    ∧ (0 < (run [Op.add "a" 1, Op.complete "done"]).totalJobs →
        (getStats (run [Op.add "a" 1, Op.complete "done"])).successRate =
          JsVal.str (toFixed1 ((run [Op.add "a" 1, Op.complete "done"]).completedJobs * 100)
            (run [Op.add "a" 1, Op.complete "done"]).totalJobs)
        ∧ ∃ a d2 : Nat, d2 < 10 ∧ (Nat.repr d2).length = 1
            ∧ (getStats (run [Op.add "a" 1, Op.complete "done"])).successRate =
              JsVal.str (Nat.repr a ++ "." ++ Nat.repr d2))
    ∧ ((run [Op.add "a" 1, Op.complete "done"]).totalJobs = 0 →
        (getStats (run [Op.add "a" 1, Op.complete "done"])).successRate = JsVal.num 0) :=
  C10_stats _ ⟨[Op.add "a" 1, Op.complete "done"], rfl⟩
